import Mathlib

/-!
Verification of the Session Reconciler in
`src/TwitterLogReader/TwitterUserSessionStore.py`.

The Python class keeps three dictionaries:
  * `user_average`          : user_id → running average duration,
  * `open_sessions`         : user_id → start timestamp of the open session,
  * `user_session_counter`  : defaultdict(int), user_id → number of sessions.

Python dictionaries preserve insertion order, update a key in place and
append new keys at the end; we embed each dictionary as an association
list with exactly those semantics (`dlookup`, `dset`, `ddel`).

Timestamps are embedded as `Int` (the log format carries integer
timestamps).  In the Python code the values stored in `open_sessions` are
the raw timestamp strings, so the sentinel comparison
`open_sessions.get(user_id, -1) == -1` in `process_log_file` is true
exactly when the key is absent (a stored string never equals the int -1);
we therefore embed the lookup as an `Option Int` and the sentinel test as
a match on `none`, which is observationally identical.

Division in `get_incr_average` is Python 3 true division, embedded as
division on `Rat` (ℚ).

`ingest` embeds one iteration of the `process_log_file` loop.  Besides the
new store it returns the diagnostics printed during the iteration and the
list of `(user_id, duration)` pairs for the sessions completed during the
iteration (these are the observable side effects of the loop body; the
duration list instruments the calls to `end_session`).
-/

set_option autoImplicit false

namespace TwitterSessionStore

universe u

/-- Lookup in a Python-dict-like association list (first matching key). -/
def dlookup {α : Type u} : List (String × α) → String → Option α
  | [], _ => none
  | (k', v) :: m, k => if k' = k then some v else dlookup m k

/-- `d[k] = v` on a Python dict: update in place if the key exists,
otherwise append at the end (insertion order). -/
def dset {α : Type u} : List (String × α) → String → α → List (String × α)
  | [], k, v => [(k, v)]
  | (k', v') :: m, k, v =>
      if k' = k then (k, v) :: m else (k', v') :: dset m k v

/-- `del d[k]` on a Python dict: remove the entry with the given key. -/
def ddel {α : Type u} : List (String × α) → String → List (String × α)
  | [], _ => []
  | (k', v') :: m, k => if k' = k then m else (k', v') :: ddel m k

/-- The keys of the association list are pairwise distinct (every Python
dict satisfies this by construction). -/
def NodupKeys {α : Type u} (m : List (String × α)) : Prop :=
  (m.map Prod.fst).Nodup

instance {α : Type u} (m : List (String × α)) : Decidable (NodupKeys m) :=
  inferInstanceAs (Decidable ((m.map Prod.fst).Nodup))

/-- One log record `user_id,timestamp,action`, already split into its three
fields by the line source; the action is kept as the raw string exactly as
the Python code compares it (`action == "open"`, `action == "close"`). -/
structure Event where
  user_id : String
  timestamp : Int
  action : String
deriving DecidableEq, Repr

/-- The mutable state of a `TwitterUserSessionStore` instance: the three
dictionaries set up in `__init__` (the two file-name attributes belong to
the excluded I/O boundary). -/
structure Store where
  user_average : List (String × Rat)
  open_sessions : List (String × Int)
  user_session_counter : List (String × Nat)
deriving DecidableEq, Repr

/-- The state right after `__init__`: all three dictionaries empty. -/
def store0 : Store := ⟨[], [], []⟩

/-- `get_incr_average` (lines 60-72): reads `user_average.get(user_id, 0)`
and `user_session_counter.get(user_id, 1)` and returns
`prev_average + (duration - prev_average) / session_count`. -/
def get_incr_average (s : Store) (user_id : String) (duration : Int) : Rat :=
  let prev_average : Rat := (dlookup s.user_average user_id).getD 0
  let session_count : Nat := (dlookup s.user_session_counter user_id).getD 1
  prev_average + ((duration : Rat) - prev_average) / (session_count : Rat)

/-- `end_session` (lines 74-87): computes the duration, increments
`user_session_counter[user_id]` (defaultdict: absent key counts as 0),
stores the new incremental average, and deletes the open session. -/
def end_session (s : Store) (user_id : String)
    (start_timestamp end_timestamp : Int) : Store :=
  let duration : Int := end_timestamp - start_timestamp
  let newCount : Nat := (dlookup s.user_session_counter user_id).getD 0 + 1
  let s1 : Store :=
    { s with user_session_counter := dset s.user_session_counter user_id newCount }
  let s2 : Store :=
    { s1 with user_average := dset s1.user_average user_id (get_incr_average s1 user_id duration) }
  { s2 with open_sessions := ddel s2.open_sessions user_id }

/-- The diagnostic printed for an unmatched close event (line 125):
`"No open session found for: " + log_line`, where the log line is the raw
`user_id,timestamp,action` record. -/
def diag_line (e : Event) : String :=
  "No open session found for: " ++ e.user_id ++ "," ++ toString e.timestamp
    ++ "," ++ e.action

/-- One iteration of the `process_log_file` loop (lines 106-127) on an
already-parsed event.  Returns the new store, the diagnostics printed
during the iteration, and the `(user, duration)` pairs of the sessions
completed (one per call to `end_session`). -/
def ingest (consider_missing_close : Bool) (s : Store) (e : Event) :
    Store × List String × List (String × Int) :=
  let afterOpen : Store × List (String × Int) :=
    if e.action = "open" then
      let ended : Store × List (String × Int) :=
        if (dlookup s.open_sessions e.user_id).isSome then
          if consider_missing_close then
            match dlookup s.open_sessions e.user_id with
            | some start_timestamp =>
                (end_session s e.user_id start_timestamp e.timestamp,
                 [(e.user_id, e.timestamp - start_timestamp)])
            | none => (s, [])
          else (s, [])
        else (s, [])
      ({ ended.1 with open_sessions := dset ended.1.open_sessions e.user_id e.timestamp },
       ended.2)
    else (s, [])
  if e.action = "close" then
    match dlookup afterOpen.1.open_sessions e.user_id with
    | none => (afterOpen.1, [diag_line e], afterOpen.2)
    | some start_timestamp =>
        (end_session afterOpen.1 e.user_id start_timestamp e.timestamp, [],
         afterOpen.2 ++ [(e.user_id, e.timestamp - start_timestamp)])
  else (afterOpen.1, [], afterOpen.2)

/-- The whole `process_log_file` loop over a list of parsed events,
accumulating diagnostics and completed-session durations in order. -/
def process_events (consider_missing_close : Bool) (s : Store) :
    List Event → Store × List String × List (String × Int)
  | [] => (s, [], [])
  | e :: rest =>
      let r := ingest consider_missing_close s e
      let r' := process_events consider_missing_close r.1 rest
      (r'.1, r.2.1 ++ r'.2.1, r.2.2 ++ r'.2.2)

/-- The `running_average` query: `user_average.get(user_id, 0)` — the
spec's defined default of 0 for users with no completed session. -/
def running_average (s : Store) (user_id : String) : Rat :=
  (dlookup s.user_average user_id).getD 0

/-- The `session_count[user]` query on the defaultdict: absent keys read
as 0. -/
def session_count (s : Store) (user_id : String) : Nat :=
  (dlookup s.user_session_counter user_id).getD 0

/-- `residual_open_sessions()`: the snapshot of `open_sessions`, in dict
(insertion) order. -/
def residual_open_sessions (s : Store) : List (String × Int) :=
  s.open_sessions

/-- `load_incomplete_sessions` (lines 50-58) on already-split records: for
each `(user_id, timestamp, action)` record in order, if the action is
`"open"` set `open_sessions[user_id] = timestamp`. -/
def load_incomplete_sessions (s : Store) :
    List (String × Int × String) → Store
  | [] => s
  | (user_id, timestamp, action) :: rest =>
      load_incomplete_sessions
        (if action = "open" then
          { s with open_sessions := dset s.open_sessions user_id timestamp }
         else s) rest

/-- Split a list of characters at every occurrence of the separator
(Python `str.split(sep)`). -/
def splitOnChar (c : Char) : List Char → List (List Char)
  | [] => [[]]
  | a :: rest =>
      match splitOnChar c rest with
      | [] => [[a]]
      | x :: xs => if a = c then [] :: x :: xs else (a :: x) :: xs

/-- Python `str.strip()`: remove leading and trailing whitespace. -/
def stripChars (l : List Char) : List Char :=
  ((l.dropWhile Char.isWhitespace).reverse.dropWhile Char.isWhitespace).reverse

/-- `log_line.strip().split(",")` followed by the unpacking
`user_id, timestamp, action = ...` (line 56): `some` exactly when the
line has exactly three comma-separated fields; Python raises an uncaught
ValueError otherwise. -/
def parse_record (line : List Char) : Option (String × String × String) :=
  match splitOnChar ',' (stripChars line) with
  | [a, b, c] => some (String.mk a, String.mk b, String.mk c)
  | _ => none

/-- `write_incomplete_sessions` (lines 134-141) as a function from the
`open_sessions` dictionary (in dict order) to the text written to the
sink: one `"%s,%s,%s" % (user_id, timestamp, "open")` chunk per entry,
concatenated exactly as successive `fp.write` calls emit them — the
format string contains no newline. -/
def write_incomplete_sessions (m : List (String × Int)) : List Char :=
  match m with
  | [] => []
  | (user_id, timestamp) :: rest =>
      (user_id ++ "," ++ toString timestamp ++ ",open").toList
        ++ write_incomplete_sessions rest

/-- Iterating `for log_line in open(file)` over a text file yields the
file's lines (an empty file yields no lines; the newline character is
code point 10). -/
def fileLines (content : List Char) : List (List Char) :=
  if content = [] then [] else splitOnChar (Char.ofNat 10) content

/-- The text level of `load_incomplete_sessions` (lines 50-58): split the
sink content into lines and parse each line into its three fields;
`none` models the uncaught ValueError on a line whose field count is not
three. -/
def load_records (content : List Char) : Option (List (String × String × String)) :=
  (fileLines content).mapM parse_record

/-- The last event in the list that belongs to the given user, if any. -/
def lastUEvent : List Event → String → Option Event
  | [], _ => none
  | e :: rest, u =>
      match lastUEvent rest u with
      | some e' => some e'
      | none => if e.user_id = u then some e else none

/-- The timestamp of the last `"open"` record for the given user in a
residual-record list, if any. -/
def lastOpenRecord : List (String × Int × String) → String → Option Int
  | [], _ => none
  | (user_id, timestamp, action) :: rest, u =>
      match lastOpenRecord rest u with
      | some t => some t
      | none => if user_id = u ∧ action = "open" then some timestamp else none

/-- The value `user_session_counter.get(user_id, 1)` read by
`get_incr_average` when it is invoked from `end_session`, i.e. after
`user_session_counter[user_id] += 1` has run. -/
def end_session_divisor (s : Store) (user_id : String) : Nat :=
  (dlookup
    (dset s.user_session_counter user_id
      ((dlookup s.user_session_counter user_id).getD 0 + 1))
    user_id).getD 1

/-! ### Dictionary lemmas -/

section DictLemmas

variable {α : Type u}

@[simp]
theorem dlookup_nil (k : String) : dlookup ([] : List (String × α)) k = none := rfl

theorem dlookup_dset (m : List (String × α)) (k : String) (v : α) (k' : String) :
    dlookup (dset m k v) k' = if k = k' then some v else dlookup m k' := by
  induction m with
  | nil => by_cases h : k = k' <;> simp [dset, dlookup, h]
  | cons p m ih =>
      obtain ⟨a, b⟩ := p
      by_cases hak : a = k
      · subst hak
        by_cases h : a = k' <;> simp [dset, dlookup, h]
      · by_cases h : a = k'
        · subst h
          have : ¬ k = a := fun hk => hak hk.symm
          simp [dset, dlookup, hak, this]
        · simp [dset, dlookup, hak, h, ih]

theorem dlookup_eq_none_iff (m : List (String × α)) (k : String) :
    dlookup m k = none ↔ k ∉ m.map Prod.fst := by
  induction m with
  | nil => simp
  | cons p m ih =>
      obtain ⟨a, b⟩ := p
      by_cases h : a = k
      · subst h
        simp [dlookup]
      · simp [dlookup, h, ih, Ne.symm h]

theorem mem_keys_dset (m : List (String × α)) (k : String) (v : α) (a : String) :
    a ∈ (dset m k v).map Prod.fst ↔ a ∈ m.map Prod.fst ∨ a = k := by
  induction m with
  | nil => simp [dset]
  | cons p m ih =>
      obtain ⟨a', b'⟩ := p
      by_cases h : a' = k
      · subst h
        simp [dset]
        tauto
      · simp [dset, h, ih]
        tauto

theorem NodupKeys.dset {m : List (String × α)} (h : NodupKeys m) (k : String) (v : α) :
    NodupKeys ( dset m k v) := by
  induction m with
  | nil => simp [NodupKeys, TwitterSessionStore.dset]
  | cons p m ih =>
      obtain ⟨a, b⟩ := p
      rw [NodupKeys, List.map_cons, List.nodup_cons] at h
      by_cases hak : a = k
      · subst hak
        simpa [NodupKeys, TwitterSessionStore.dset] using h
      · have ih' := ih h.2
        rw [NodupKeys, TwitterSessionStore.dset, if_neg hak, List.map_cons, List.nodup_cons]
        refine ⟨fun hmem => ?_, ih'⟩
        rcases (mem_keys_dset m k v a).mp hmem with h1 | h1
        · exact h.1 h1
        · exact hak h1

theorem ddel_sublist (m : List (String × α)) (k : String) : (ddel m k).Sublist m := by
  induction m with
  | nil => simp [ddel]
  | cons p m ih =>
      obtain ⟨a, b⟩ := p
      by_cases h : a = k
      · simp [ddel, h]
      · simpa [ddel, h] using ih

theorem NodupKeys.ddel {m : List (String × α)} (h : NodupKeys m) (k : String) :
    NodupKeys ( ddel m k) :=
  List.Nodup.sublist (List.Sublist.map Prod.fst (ddel_sublist m k)) h

theorem dlookup_ddel {m : List (String × α)} (h : NodupKeys m) (k k' : String) :
    dlookup (ddel m k) k' = if k = k' then none else dlookup m k' := by
  induction m with
  | nil => simp [ddel]
  | cons p m ih =>
      obtain ⟨a, b⟩ := p
      rw [NodupKeys, List.map_cons, List.nodup_cons] at h
      by_cases hak : a = k
      · subst hak
        by_cases h' : a = k'
        · subst h'
          rw [ddel, if_pos rfl, if_pos rfl]
          exact (dlookup_eq_none_iff m a).mpr h.1
        · have : ¬ a = k' := h'
          simp [ddel, dlookup, this]
      · by_cases h' : a = k'
        · subst h'
          have : ¬ k = a := fun hk => hak hk.symm
          simp [ddel, dlookup, hak, this]
        · simp [ddel, dlookup, hak, h', ih h.2]

theorem dset_eq_append {m : List (String × α)} {k : String}
    (h : dlookup m k = none) (v : α) : dset m k v = m ++ [(k, v)] := by
  induction m with
  | nil => simp [dset]
  | cons p m ih =>
      obtain ⟨a, b⟩ := p
      rw [dlookup] at h
      by_cases hak : a = k
      · rw [if_pos hak] at h
        exact absurd h (by simp)
      · rw [if_neg hak] at h
        simp [dset, hak, ih h]

theorem dlookup_append (m1 m2 : List (String × α)) (k : String) :
    dlookup (m1 ++ m2) k =
      match dlookup m1 k with
      | some v => some v
      | none => dlookup m2 k := by
  induction m1 with
  | nil => simp [dlookup]
  | cons p m ih =>
      obtain ⟨a, b⟩ := p
      by_cases h : a = k <;> simp [dlookup, h, ih]

end DictLemmas

/-! ### `end_session` and `ingest` case analysis -/

theorem end_session_user_session_counter (s : Store) (u : String) (st et : Int) :
    (end_session s u st et).user_session_counter
      = dset s.user_session_counter u (session_count s u + 1) := rfl

theorem end_session_open_sessions (s : Store) (u : String) (st et : Int) :
    (end_session s u st et).open_sessions = ddel s.open_sessions u := rfl

theorem end_session_user_average (s : Store) (u : String) (st et : Int) :
    (end_session s u st et).user_average
      = dset s.user_average u
          (running_average s u + (((et - st : Int) : Rat) - running_average s u)
            / ((session_count s u + 1 : Nat) : Rat)) := by
  unfold end_session get_incr_average
  simp [dlookup_dset, running_average, session_count]

theorem ingest_close_of_none (cmc : Bool) (s : Store) (e : Event)
    (ha : e.action = "close") (h : dlookup s.open_sessions e.user_id = none) :
    ingest cmc s e = (s, [diag_line e], []) := by
  have hno : ¬ e.action = "open" := by rw [ha]; decide
  simp [ingest, hno, ha, h]

theorem ingest_close_of_some (cmc : Bool) (s : Store) (e : Event) (st : Int)
    (ha : e.action = "close") (h : dlookup s.open_sessions e.user_id = some st) :
    ingest cmc s e
      = (end_session s e.user_id st e.timestamp, [], [(e.user_id, e.timestamp - st)]) := by
  have hno : ¬ e.action = "open" := by rw [ha]; decide
  simp [ingest, hno, ha, h]

theorem ingest_open_of_none (cmc : Bool) (s : Store) (e : Event)
    (ha : e.action = "open") (h : dlookup s.open_sessions e.user_id = none) :
    ingest cmc s e
      = ({ s with open_sessions := dset s.open_sessions e.user_id e.timestamp }, [], []) := by
  have hnc : ¬ e.action = "close" := by rw [ha]; decide
  simp [ingest, ha, hnc, h]

theorem ingest_open_of_some_true (s : Store) (e : Event) (st : Int)
    (ha : e.action = "open") (h : dlookup s.open_sessions e.user_id = some st) :
    ingest true s e
      = ({ end_session s e.user_id st e.timestamp with open_sessions := dset (end_session s e.user_id st e.timestamp).open_sessions e.user_id e.timestamp },
         [], [(e.user_id, e.timestamp - st)]) := by
  have hnc : ¬ e.action = "close" := by rw [ha]; decide
  simp [ingest, ha, hnc, h]

theorem ingest_open_of_some_false (s : Store) (e : Event) (st : Int)
    (ha : e.action = "open") (h : dlookup s.open_sessions e.user_id = some st) :
    ingest false s e
      = ({ s with open_sessions := dset s.open_sessions e.user_id e.timestamp }, [], []) := by
  have hnc : ¬ e.action = "close" := by rw [ha]; decide
  simp [ingest, ha, hnc, h]

theorem ingest_of_other (cmc : Bool) (s : Store) (e : Event)
    (h1 : ¬ e.action = "open") (h2 : ¬ e.action = "close") :
    ingest cmc s e = (s, [], []) := by
  simp [ingest, h1, h2]

theorem Store.ext' {s t : Store} (h1 : s.user_average = t.user_average)
    (h2 : s.open_sessions = t.open_sessions)
    (h3 : s.user_session_counter = t.user_session_counter) : s = t := by
  cases s
  cases t
  simp_all

/-! ### Step and invariant lemmas -/

theorem ingest_session_count (cmc : Bool) (s : Store) (e : Event) (u : String) :
    session_count (ingest cmc s e).1 u
      = session_count s u + (ingest cmc s e).2.2.countP (fun p => p.1 == u) := by
  by_cases ho : e.action = "open"
  · cases hl : dlookup s.open_sessions e.user_id with
    | none =>
        rw [ingest_open_of_none cmc s e ho hl]
        simp [session_count]
    | some st =>
        cases cmc with
        | false =>
            rw [ingest_open_of_some_false s e st ho hl]
            simp [session_count]
        | true =>
            rw [ingest_open_of_some_true s e st ho hl]
            by_cases hu : e.user_id = u
            · subst hu
              simp [session_count, end_session_user_session_counter, dlookup_dset]
            · simp [session_count, end_session_user_session_counter, dlookup_dset, hu]
  · by_cases hc : e.action = "close"
    · cases hl : dlookup s.open_sessions e.user_id with
      | none =>
          rw [ingest_close_of_none cmc s e hc hl]
          simp [session_count]
      | some st =>
          rw [ingest_close_of_some cmc s e st hc hl]
          by_cases hu : e.user_id = u
          · subst hu
            simp [session_count, end_session_user_session_counter, dlookup_dset]
          · simp [session_count, end_session_user_session_counter, dlookup_dset, hu]
    · rw [ingest_of_other cmc s e ho hc]
      simp [session_count]

theorem process_session_count (cmc : Bool) (es : List Event) :
    ∀ (s : Store) (u : String),
    session_count (process_events cmc s es).1 u
      = session_count s u
          + (process_events cmc s es).2.2.countP (fun p => p.1 == u) := by
  induction es with
  | nil => intro s u; simp [process_events]
  | cons e rest ih =>
      intro s u
      simp only [process_events, List.countP_append]
      rw [ih, ingest_session_count]
      omega

theorem ingest_nodup (cmc : Bool) (s : Store) (e : Event)
    (h : NodupKeys s.open_sessions) : NodupKeys (ingest cmc s e).1.open_sessions := by
  by_cases ho : e.action = "open"
  · cases hl : dlookup s.open_sessions e.user_id with
    | none =>
        rw [ingest_open_of_none cmc s e ho hl]
        exact h.dset _ _
    | some st =>
        cases cmc with
        | false =>
            rw [ingest_open_of_some_false s e st ho hl]
            exact h.dset _ _
        | true =>
            rw [ingest_open_of_some_true s e st ho hl]
            show NodupKeys (dset (end_session s e.user_id st e.timestamp).open_sessions _ _)
            rw [end_session_open_sessions]
            exact (h.ddel _).dset _ _
  · by_cases hc : e.action = "close"
    · cases hl : dlookup s.open_sessions e.user_id with
      | none =>
          rw [ingest_close_of_none cmc s e hc hl]
          exact h
      | some st =>
          rw [ingest_close_of_some cmc s e st hc hl]
          show NodupKeys (end_session s e.user_id st e.timestamp).open_sessions
          rw [end_session_open_sessions]
          exact h.ddel _
    · rw [ingest_of_other cmc s e ho hc]
      exact h

theorem process_nodup (cmc : Bool) (es : List Event) :
    ∀ (s : Store), NodupKeys s.open_sessions →
    NodupKeys (process_events cmc s es).1.open_sessions := by
  induction es with
  | nil => intro s h; simpa [process_events] using h
  | cons e rest ih =>
      intro s h
      simp only [process_events]
      exact ih _ (ingest_nodup cmc s e h)

theorem ingest_open_sessions_lookup (cmc : Bool) (s : Store) (e : Event)
    (hval : e.action = "open" ∨ e.action = "close")
    (hnd : NodupKeys s.open_sessions) (u : String) :
    dlookup (ingest cmc s e).1.open_sessions u
      = if e.user_id = u then
          (if e.action = "open" then some e.timestamp else none)
        else dlookup s.open_sessions u := by
  rcases hval with ho | hc
  · cases hl : dlookup s.open_sessions e.user_id with
    | none =>
        rw [ingest_open_of_none cmc s e ho hl]
        simp [dlookup_dset, ho]
    | some st =>
        cases cmc with
        | false =>
            rw [ingest_open_of_some_false s e st ho hl]
            simp [dlookup_dset, ho]
        | true =>
            rw [ingest_open_of_some_true s e st ho hl]
            show dlookup (dset (end_session s e.user_id st e.timestamp).open_sessions _ _) u = _
            rw [end_session_open_sessions, dlookup_dset, dlookup_ddel hnd]
            by_cases hu : e.user_id = u <;> simp [hu, ho]
  · have hno : ¬ e.action = "open" := by rw [hc]; decide
    cases hl : dlookup s.open_sessions e.user_id with
    | none =>
        rw [ingest_close_of_none cmc s e hc hl]
        by_cases hu : e.user_id = u
        · subst hu
          simp [hno, hl]
        · simp [hno, hu]
    | some st =>
        rw [ingest_close_of_some cmc s e st hc hl]
        show dlookup (end_session s e.user_id st e.timestamp).open_sessions u = _
        rw [end_session_open_sessions, dlookup_ddel hnd]
        by_cases hu : e.user_id = u <;> simp [hu, hno]

theorem process_open_sessions_lookup (cmc : Bool) (es : List Event) :
    ∀ (s : Store),
    (∀ e ∈ es, e.action = "open" ∨ e.action = "close") →
    NodupKeys s.open_sessions →
    ∀ u, dlookup (process_events cmc s es).1.open_sessions u
      = match lastUEvent es u with
        | some e => if e.action = "open" then some e.timestamp else none
        | none => dlookup s.open_sessions u := by
  induction es with
  | nil => intro s _ _ u; simp [process_events, lastUEvent]
  | cons e rest ih =>
      intro s hval hnd u
      have hval' : ∀ e' ∈ rest, e'.action = "open" ∨ e'.action = "close" :=
        fun e' he' => hval e' (List.mem_cons_of_mem _ he')
      have hvale : e.action = "open" ∨ e.action = "close" :=
        hval e (List.mem_cons_self _ _)
      simp only [process_events]
      rw [ih (ingest cmc s e).1 hval' (ingest_nodup cmc s e hnd)]
      cases hle : lastUEvent rest u with
      | some e' => simp [lastUEvent, hle]
      | none =>
          simp only [lastUEvent, hle]
          rw [ingest_open_sessions_lookup cmc s e hvale hnd u]
          by_cases hu : e.user_id = u <;> simp [hu]

theorem ingest_durations_eq_nil (cmc : Bool) (s : Store) (e : Event)
    (h : (ingest cmc s e).2.2 = []) :
    (ingest cmc s e).1.user_average = s.user_average ∧
    (ingest cmc s e).1.user_session_counter = s.user_session_counter := by
  by_cases ho : e.action = "open"
  · cases hl : dlookup s.open_sessions e.user_id with
    | none =>
        rw [ingest_open_of_none cmc s e ho hl]
        exact ⟨rfl, rfl⟩
    | some st =>
        cases cmc with
        | false =>
            rw [ingest_open_of_some_false s e st ho hl]
            exact ⟨rfl, rfl⟩
        | true =>
            rw [ingest_open_of_some_true s e st ho hl] at h
            simp at h
  · by_cases hc : e.action = "close"
    · cases hl : dlookup s.open_sessions e.user_id with
      | none =>
          rw [ingest_close_of_none cmc s e hc hl]
          exact ⟨rfl, rfl⟩
      | some st =>
          rw [ingest_close_of_some cmc s e st hc hl] at h
          simp at h
    · rw [ingest_of_other cmc s e ho hc]
      exact ⟨rfl, rfl⟩

theorem process_durations_eq_nil (cmc : Bool) (es : List Event) :
    ∀ (s : Store), (process_events cmc s es).2.2 = [] →
    (process_events cmc s es).1.user_average = s.user_average ∧
    (process_events cmc s es).1.user_session_counter = s.user_session_counter := by
  induction es with
  | nil => intro s _; exact ⟨rfl, rfl⟩
  | cons e rest ih =>
      intro s h
      simp only [process_events] at h ⊢
      rw [List.append_eq_nil] at h
      obtain ⟨h1, h2⟩ := h
      obtain ⟨ha1, hc1⟩ := ingest_durations_eq_nil cmc s e h1
      obtain ⟨ha2, hc2⟩ := ih (ingest cmc s e).1 h2
      exact ⟨ha2.trans ha1, hc2.trans hc1⟩

theorem process_events_append (cmc : Bool) (es1 es2 : List Event) :
    ∀ (s : Store),
    (process_events cmc s (es1 ++ es2)).1
      = (process_events cmc (process_events cmc s es1).1 es2).1 := by
  induction es1 with
  | nil => intro s; simp [process_events]
  | cons e rest ih =>
      intro s
      simp only [List.cons_append, process_events]
      exact ih (ingest cmc s e).1

theorem load_user_average (rs : List (String × Int × String)) :
    ∀ (s : Store), (load_incomplete_sessions s rs).user_average = s.user_average := by
  induction rs with
  | nil => intro s; rfl
  | cons r rest ih =>
      obtain ⟨ru, rt, ra⟩ := r
      intro s
      simp only [load_incomplete_sessions]
      rw [ih]
      by_cases hra : ra = "open" <;> simp [hra]

theorem load_user_session_counter (rs : List (String × Int × String)) :
    ∀ (s : Store),
    (load_incomplete_sessions s rs).user_session_counter = s.user_session_counter := by
  induction rs with
  | nil => intro s; rfl
  | cons r rest ih =>
      obtain ⟨ru, rt, ra⟩ := r
      intro s
      simp only [load_incomplete_sessions]
      rw [ih]
      by_cases hra : ra = "open" <;> simp [hra]

theorem load_open_sessions_lookup (rs : List (String × Int × String)) :
    ∀ (s : Store) (u : String),
    dlookup (load_incomplete_sessions s rs).open_sessions u
      = match lastOpenRecord rs u with
        | some t => some t
        | none => dlookup s.open_sessions u := by
  induction rs with
  | nil => intro s u; simp [load_incomplete_sessions, lastOpenRecord]
  | cons r rest ih =>
      obtain ⟨ru, rt, ra⟩ := r
      intro s u
      simp only [load_incomplete_sessions]
      rw [ih]
      cases hle : lastOpenRecord rest u with
      | some t => simp [lastOpenRecord, hle]
      | none =>
          simp only [lastOpenRecord, hle]
          by_cases hra : ra = "open"
          · subst hra
            by_cases hu : ru = u <;> simp [hu, dlookup_dset]
          · simp [hra]

theorem load_rebuild (m : List (String × Int)) :
    ∀ (s : Store),
    (∀ p ∈ m, dlookup s.open_sessions p.1 = none) → NodupKeys m →
    (load_incomplete_sessions s (m.map (fun p => (p.1, p.2, "open")))).open_sessions
      = s.open_sessions ++ m := by
  induction m with
  | nil => intro s _ _; simp [load_incomplete_sessions]
  | cons p m ih =>
      obtain ⟨pu, pt⟩ := p
      intro s hnone hnd
      rw [NodupKeys, List.map_cons, List.nodup_cons] at hnd
      have h1 : dlookup s.open_sessions pu = none :=
        hnone (pu, pt) (List.mem_cons_self _ _)
      simp only [List.map_cons, load_incomplete_sessions, if_pos rfl]
      rw [ih _ ?_ hnd.2]
      · show dset s.open_sessions pu pt ++ m = _
        rw [dset_eq_append h1, List.append_assoc]
        rfl
      · intro q hq
        show dlookup (dset s.open_sessions pu pt) q.1 = none
        rw [dlookup_dset]
        have hq1 : q.1 ∈ m.map Prod.fst := List.mem_map_of_mem Prod.fst hq
        have hne : ¬ pu = q.1 := by
          intro hpq
          rw [hpq] at hnd
          exact hnd.1 hq1
        rw [if_neg hne]
        exact hnone q (List.mem_cons_of_mem _ hq)

/-! ### Claims -/

/-- C1 counterexample: ingesting
`[(u1,100,open),(u1,200,open),(u1,260,close)]` with
`consider_missing_close=true` yields `running_average(u1) == 80`, not 60
as the claim states: `end_session` increments `user_session_counter`
before `get_incr_average` reads it, so the second session is averaged
with divisor 2 (= k), not 1 (= k-1): 100 + (60-100)/2 = 80. -/
theorem c1_counterexample :
    running_average (process_events true store0
      [⟨"u1", 100, "open"⟩, ⟨"u1", 200, "open"⟩, ⟨"u1", 260, "close"⟩]).1 "u1" = 80
    ∧ ¬ running_average (process_events true store0
      [⟨"u1", 100, "open"⟩, ⟨"u1", 200, "open"⟩, ⟨"u1", 260, "close"⟩]).1 "u1" = 60 := by
  have h : running_average (process_events true store0
      [⟨"u1", 100, "open"⟩, ⟨"u1", 200, "open"⟩, ⟨"u1", 260, "close"⟩]).1 "u1" = 80 := by
    simp [running_average, process_events, ingest, end_session, get_incr_average,
      dlookup, dset, ddel, store0]
    try norm_num
  refine ⟨h, ?_⟩
  rw [h]
  norm_num

/-- C1 (amended): when a user's k-th session is completed (every
completion, by close or by reconciled open, goes through `end_session`),
the new running average is A0 + (D - A0)/k — the divisor is the
already-incremented session count k, not k-1; concretely Scenario B
yields `session_count[u1] == 2` and `running_average(u1) == 80`. -/
theorem c1_amended :
    (∀ (s : Store) (u : String) (st et : Int),
        1 ≤ session_count s u →
        running_average (end_session s u st et) u
          = running_average s u
              + (((et - st : Int) : Rat) - running_average s u)
                / ((session_count s u + 1 : Nat) : Rat))
    ∧ session_count (process_events true store0
        [⟨"u1", 100, "open"⟩, ⟨"u1", 200, "open"⟩, ⟨"u1", 260, "close"⟩]).1 "u1" = 2
    ∧ running_average (process_events true store0
        [⟨"u1", 100, "open"⟩, ⟨"u1", 200, "open"⟩, ⟨"u1", 260, "close"⟩]).1 "u1" = 80 := by
  refine ⟨?_, rfl, ?_⟩
  · intro s u st et _
    show (dlookup (end_session s u st et).user_average u).getD 0 = _
    rw [end_session_user_average, dlookup_dset, if_pos rfl]
    rfl
  · simp [running_average, process_events, ingest, end_session, get_incr_average,
      dlookup, dset, ddel, store0]
    try norm_num

/-- C1 witness: the amended average-update law applied to a concrete
store whose user already has one completed session. -/
theorem c1_amended_witness :
    running_average (end_session ⟨[("u", 100)], [("u", 5)], [("u", 1)]⟩ "u" 5 65) "u"
      = running_average ⟨[("u", 100)], [("u", 5)], [("u", 1)]⟩ "u"
          + (((65 - 5 : Int) : Rat)
              - running_average ⟨[("u", 100)], [("u", 5)], [("u", 1)]⟩ "u")
            / ((session_count ⟨[("u", 100)], [("u", 5)], [("u", 1)]⟩ "u" + 1 : Nat) : Rat) :=
  c1_amended.1 ⟨[("u", 100)], [("u", 5)], [("u", 1)]⟩ "u" 5 65 (by decide)

/-- C2: a user's first completed session (prior session count 0) makes the
running average exactly the session's duration, and Scenario A
`[(u1,100,open),(u1,160,close)]` yields `running_average(u1) == 60`. -/
theorem c2_first_session_exactness :
    (∀ (s : Store) (u : String) (st et : Int),
        session_count s u = 0 →
        running_average (end_session s u st et) u = ((et - st : Int) : Rat))
    ∧ running_average (process_events true store0
        [⟨"u1", 100, "open"⟩, ⟨"u1", 160, "close"⟩]).1 "u1" = 60 := by
  constructor
  · intro s u st et h
    show (dlookup (end_session s u st et).user_average u).getD 0 = _
    rw [end_session_user_average, dlookup_dset, if_pos rfl]
    simp [h]
  · simp [running_average, process_events, ingest, end_session, get_incr_average,
      dlookup, dset, ddel, store0]
    try norm_num

/-- C2 witness: the first-session law at a fresh store. -/
theorem c2_witness :
    running_average (end_session store0 "u1" 100 160) "u1" = ((160 - 100 : Int) : Rat) :=
  c2_first_session_exactness.1 store0 "u1" 100 160 (by decide)

/-- C3: for every event stream and every user, the session counter after
processing equals the number of durations computed for that user (one
duration record is emitted per `end_session` call, covering both the
matched-close and the reconcile-on-open paths). -/
theorem c3_session_count_equals_durations (cmc : Bool) (es : List Event) (u : String) :
    session_count (process_events cmc store0 es).1 u
      = (process_events cmc store0 es).2.2.countP (fun p => p.1 == u) := by
  have h := process_session_count cmc es store0 u
  simpa [session_count, store0, dlookup] using h

/-- C4: after ingesting any stream of well-formed events from a fresh
store, the open-session table has pairwise-distinct keys (at most one
entry per user), and a user has an entry with timestamp t exactly when
that user's last event in the stream is an open with timestamp t — i.e.
every entry is the start timestamp of a session with no close observed
since. -/
theorem c4_open_table_invariant (cmc : Bool) (es : List Event)
    (hval : ∀ e ∈ es, e.action = "open" ∨ e.action = "close") :
    NodupKeys (process_events cmc store0 es).1.open_sessions
    ∧ ∀ u t, dlookup (process_events cmc store0 es).1.open_sessions u = some t
        ↔ ∃ e, lastUEvent es u = some e ∧ e.action = "open" ∧ e.timestamp = t := by
  constructor
  · exact process_nodup cmc es store0 (by simp [NodupKeys, store0])
  · intro u t
    rw [process_open_sessions_lookup cmc es store0 hval (by simp [NodupKeys, store0]) u]
    cases hle : lastUEvent es u with
    | none => simp [store0]
    | some e =>
        by_cases ho : e.action = "open"
        · simp [ho, eq_comm]
        · simp [ho, eq_comm]
          exact fun h' => absurd h'.symm ho

/-- C4 witness: the invariant applied to the single-open stream. -/
theorem c4_witness :
    dlookup (process_events true store0 [⟨"u1", 100, "open"⟩]).1.open_sessions "u1"
      = some 100 :=
  ((c4_open_table_invariant true [⟨"u1", 100, "open"⟩] (by decide)).2 "u1" 100).mpr
    ⟨⟨"u1", 100, "open"⟩, rfl, rfl, rfl⟩

/-- C5: a close event for a user with no open session leaves the whole
store unchanged, computes no duration and emits exactly the diagnostic
identifying the record; Scenario D `[(u2,50,close)]` emits the diagnostic
and leaves `running_average(u2) == 0`. -/
theorem c5_unmatched_close :
    (∀ (cmc : Bool) (s : Store) (e : Event),
        e.action = "close" → dlookup s.open_sessions e.user_id = none →
        ingest cmc s e = (s, [diag_line e], []))
    ∧ (process_events true store0 [⟨"u2", 50, "close"⟩]).2.1
        = ["No open session found for: u2,50,close"]
    ∧ running_average (process_events true store0 [⟨"u2", 50, "close"⟩]).1 "u2" = 0 := by
  refine ⟨?_, rfl, rfl⟩
  intro cmc s e ha h
  exact ingest_close_of_none cmc s e ha h

/-- C5 witness: an unmatched close against the fresh store. -/
theorem c5_witness :
    ingest true store0 ⟨"u9", 5, "close"⟩ = (store0, [diag_line ⟨"u9", 5, "close"⟩], []) :=
  c5_unmatched_close.1 true store0 ⟨"u9", 5, "close"⟩ rfl rfl

/-- C6: with `consider_missing_close=false` a duplicate open abandons the
previous open session — no duration, no stats update, only the open
timestamp is overwritten; Scenario C yields `session_count[u1] == 1` and
`running_average(u1) == 60`. -/
theorem c6_ignore_policy :
    (∀ (s : Store) (e : Event) (st : Int),
        e.action = "open" → dlookup s.open_sessions e.user_id = some st →
        ingest false s e
          = ({ s with open_sessions := dset s.open_sessions e.user_id e.timestamp }, [], []))
    ∧ session_count (process_events false store0
        [⟨"u1", 100, "open"⟩, ⟨"u1", 200, "open"⟩, ⟨"u1", 260, "close"⟩]).1 "u1" = 1
    ∧ running_average (process_events false store0
        [⟨"u1", 100, "open"⟩, ⟨"u1", 200, "open"⟩, ⟨"u1", 260, "close"⟩]).1 "u1" = 60 := by
  refine ⟨?_, rfl, ?_⟩
  · intro s e st ha h
    exact ingest_open_of_some_false s e st ha h
  · simp [running_average, process_events, ingest, end_session, get_incr_average,
      dlookup, dset, ddel, store0]
    try norm_num

/-- C6 witness: a duplicate open under the ignore policy at a concrete
store holding an open session. -/
theorem c6_witness :
    ingest false ⟨[], [("u1", 100)], []⟩ ⟨"u1", 200, "open"⟩
      = (⟨[], [("u1", 200)], []⟩, [], []) :=
  c6_ignore_policy.1 ⟨[], [("u1", 100)], []⟩ ⟨"u1", 200, "open"⟩ 100 rfl rfl

/-- C7 counterexample: the split `[(u1,0,open),(u1,10,close)]` /
`[(u1,20,open),(u1,30,close)]` has no open session pending at the split
point (so no duplicate-open ambiguity), yet the uninterrupted run records
two sessions for u1 while the preload-resumed fresh run records only one:
the residual snapshot carries no UserStats, so the split run's final
UserStats differ from the uninterrupted run's. -/
theorem c7_counterexample :
    residual_open_sessions (process_events true store0
      [⟨"u1", 0, "open"⟩, ⟨"u1", 10, "close"⟩]).1 = []
    ∧ session_count (process_events true store0
        ([⟨"u1", 0, "open"⟩, ⟨"u1", 10, "close"⟩]
          ++ [⟨"u1", 20, "open"⟩, ⟨"u1", 30, "close"⟩])).1 "u1" = 2
    ∧ session_count (process_events true
        (load_incomplete_sessions store0
          ((residual_open_sessions (process_events true store0
            [⟨"u1", 0, "open"⟩, ⟨"u1", 10, "close"⟩]).1).map
            (fun p => (p.1, p.2, "open"))))
        [⟨"u1", 20, "open"⟩, ⟨"u1", 30, "close"⟩]).1 "u1" = 1
    ∧ (2 : Nat) ≠ 1 := by
  refine ⟨rfl, rfl, rfl, by decide⟩

/-- C7 (amended): the residual round-trip is exact when the prefix
completes no session (computes no duration) — then preloading
`residual_open_sessions()` into a fresh Reconciler and feeding it the
remaining events reproduces the uninterrupted run's entire final state;
Scenario E holds: `[(u3,10,open)]` gives residual `[(u3,10)]`, and a
fresh preloaded Reconciler fed `[(u3,70,close)]` yields
`running_average(u3) == 60`. -/
theorem c7_amended :
    (∀ (cmc : Bool) (es1 es2 : List Event),
        (process_events cmc store0 es1).2.2 = [] →
        (process_events cmc
            (load_incomplete_sessions store0
              ((residual_open_sessions (process_events cmc store0 es1).1).map
                (fun p => (p.1, p.2, "open"))))
            es2).1
          = (process_events cmc store0 (es1 ++ es2)).1)
    ∧ residual_open_sessions (process_events true store0 [⟨"u3", 10, "open"⟩]).1
        = [("u3", 10)]
    ∧ running_average (process_events true
        (load_incomplete_sessions store0 [("u3", 10, "open")])
        [⟨"u3", 70, "close"⟩]).1 "u3" = 60 := by
  refine ⟨?_, rfl, ?_⟩
  · intro cmc es1 es2 hnil
    have hnd : NodupKeys (process_events cmc store0 es1).1.open_sessions :=
      process_nodup cmc es1 store0 (by simp [NodupKeys, store0])
    have hfr := process_durations_eq_nil cmc es1 store0 hnil
    have hstore :
        load_incomplete_sessions store0
          ((residual_open_sessions (process_events cmc store0 es1).1).map
            (fun p => (p.1, p.2, "open")))
          = (process_events cmc store0 es1).1 := by
      apply Store.ext'
      · rw [load_user_average]
        exact hfr.1.symm
      · have h := load_rebuild ((process_events cmc store0 es1).1.open_sessions) store0
          (fun p _ => rfl) hnd
        simpa [residual_open_sessions, store0] using h
      · rw [load_user_session_counter]
        exact hfr.2.symm
    rw [hstore, process_events_append cmc es1 es2 store0]
  · simp [running_average, process_events, ingest, end_session, get_incr_average,
      dlookup, dset, ddel, store0, load_incomplete_sessions]
    try norm_num

/-- C7 witness: the amended round-trip applied to Scenario E's split. -/
theorem c7_witness :
    (process_events true
        (load_incomplete_sessions store0
          ((residual_open_sessions (process_events true store0 [⟨"u3", 10, "open"⟩]).1).map
            (fun p => (p.1, p.2, "open"))))
        [⟨"u3", 70, "close"⟩]).1
      = (process_events true store0 ([⟨"u3", 10, "open"⟩] ++ [⟨"u3", 70, "close"⟩])).1 :=
  c7_amended.1 true [⟨"u3", 10, "open"⟩] [⟨"u3", 70, "close"⟩] rfl

/-- C8: the textual write/load round trip is NOT the identity — the
writer emits no newline between records, so two open sessions produce
the single line `u1,10,openu2,20,open`, whose five comma-fields make the
loader's three-way unpacking fail (ValueError, modelled as `none`); with
a single entry the round trip does succeed. -/
theorem c8_round_trip_fails :
    write_incomplete_sessions [("u1", (10 : Int)), ("u2", (20 : Int))]
      = ("u1,10,openu2,20,open").toList
    ∧ load_records (write_incomplete_sessions [("u1", (10 : Int)), ("u2", (20 : Int))])
        = none
    ∧ load_records (write_incomplete_sessions [("u1", (10 : Int))])
        = some [("u1", "10", "open")] := by
  refine ⟨by decide, by decide, by decide⟩

/-- C9: preloading residual records mutates only the open-session table —
averages and session counters are untouched for every user — and the
entry a user ends up with is the timestamp of the last `"open"` record
for that user (last-write-wins), falling back to the pre-existing entry
when the records mention the user not at all. -/
theorem c9_preload_frame :
    ∀ (s : Store) (rs : List (String × Int × String)),
    (load_incomplete_sessions s rs).user_average = s.user_average
    ∧ (load_incomplete_sessions s rs).user_session_counter = s.user_session_counter
    ∧ ∀ u, dlookup (load_incomplete_sessions s rs).open_sessions u
        = match lastOpenRecord rs u with
          | some t => some t
          | none => dlookup s.open_sessions u :=
  fun s rs =>
    ⟨load_user_average rs s, load_user_session_counter rs s,
      load_open_sessions_lookup rs s⟩

/-- C10: for every store and user, the divisor `get_incr_average` reads
when invoked from `end_session` is the counter value already incremented
for the current session — it equals the prior count plus one, is
strictly positive (so the division never divides by zero), and is the
divisor actually used in the average `end_session` stores. -/
theorem c10_divisor_never_zero :
    ∀ (s : Store) (u : String) (st et : Int),
    0 < end_session_divisor s u
    ∧ end_session_divisor s u = session_count s u + 1
    ∧ (end_session s u st et).user_average
        = dset s.user_average u
            (running_average s u + (((et - st : Int) : Rat) - running_average s u)
              / ((end_session_divisor s u : Nat) : Rat)) := by
  intro s u st et
  have hdiv : end_session_divisor s u = session_count s u + 1 := by
    unfold end_session_divisor
    rw [dlookup_dset, if_pos rfl]
    rfl
  refine ⟨by omega, hdiv, ?_⟩
  rw [hdiv, end_session_user_average]

end TwitterSessionStore
